import Mathlib

/-!
# Verification of the avalanchego snowman block tree and AVM gossip mempool

Shallow embedding of:
* `snow/consensus/snowman/snowman_block.go` — the block tree node
  (`snowmanBlock`) with its `AddChild` and `Accepted` operations;
* the consensus engine's accept protocol (modelled from the spec, the engine
  source itself is not part of the reviewed files);
* `vms/avm/network/gossip.go` — `gossipMempool.Add` and
  `gossipMempool.AddWithoutVerification`.

Block and transaction identities are modelled as natural numbers.
-/

set_option autoImplicit false

namespace Avalanche

/-- Status of a block (`choices.Status`): Processing, Accepted or Rejected. -/
inductive Status where
  | processing
  | accepted
  | rejected
deriving DecidableEq, Repr

/-- The capability surface of a `Block` that `snowman_block.go` reads:
identity, parent identity, height, timestamp and status. -/
structure Block where
  id : Nat
  parent : Nat
  height : Nat
  timestamp : Nat
  status : Status
deriving DecidableEq, Repr

/-- Parameters of the snowball family (`snowball.Parameters`): sample size, quorum threshold(s) and the
consecutive-success count required for finality. -/
structure Parameters where
  k : Nat
  alphaPreference : Nat
  alphaConfidence : Nat
  beta : Nat
deriving DecidableEq, Repr

/-- Modelled from the spec: the snowball tree voting primitive
(`snowball.Consensus` created by `snowball.NewTree`; the `snowball` package is
not among the reviewed files). Only the structure the block tree touches is
modelled: the set of registered alternatives and the current preference.
Per the spec, `NewTree` starts with its initial choice as the unconditional
preference, and registering a further alternative does not change the
preference. -/
structure SnowballTree where
  pref : Nat
  alts : List Nat
deriving DecidableEq, Repr

/-- Modelled from the spec: `snowball.NewTree(factory, params, choice)` —
the instance starts with `choice` as its sole alternative and preference. -/
def SnowballTree.newTree (_params : Parameters) (choice : Nat) : SnowballTree :=
  { pref := choice, alts := [choice] }

/-- Modelled from the spec: `Consensus.Add(id)` registers a new alternative,
leaving the current preference unchanged. -/
def SnowballTree.add (t : SnowballTree) (id : Nat) : SnowballTree :=
  if id ∈ t.alts then t else { t with alts := t.alts ++ [id] }

/-- Association-list update with map semantics (`m[k] = v` in Go): replaces
the binding of `k` if present, otherwise appends it. -/
def assocInsert {α : Type} : List (Nat × α) → Nat → α → List (Nat × α)
  | [], k, v => [(k, v)]
  | (k', v') :: rest, k, v =>
      if k' = k then (k, v) :: rest else (k', v') :: assocInsert rest k v

/-- Association-list lookup (`m[k]` in Go). -/
def assocLookup {α : Type} : List (Nat × α) → Nat → Option α
  | [], _ => none
  | (k', v') :: rest, k => if k' = k then some v' else assocLookup rest k

/-- State of one snowman block (`snowmanBlock`): tracks the state of one snowman block.  `blk` is `none`
only for the genesis / accepted-frontier node; `sb` and `children` are `none`
until a child has been issued under this node (Go `nil`).  The children map is
an association list mirroring Go's `map[ids.ID]Block`. -/
structure SnowmanBlock where
  params : Parameters
  blk : Option Block
  shouldFalter : Bool
  sb : Option SnowballTree
  children : Option (List (Nat × Block))
deriving DecidableEq, Repr

/-- Modelled from the spec: node creation by the consensus engine (the engine
source is not among the reviewed files): a new node starts with only `params`
and `blk` set; `shouldFalter`, `sb` and `children` hold their zero values. -/
def SnowmanBlock.new (params : Parameters) (blk : Option Block) : SnowmanBlock :=
  { params := params, blk := blk, shouldFalter := false, sb := none, children := none }

/-- Embeds `(*snowmanBlock).AddChild(child)`: if `sb` is nil this is the first child,
so the snowball instance is initialized via `NewTree` with the child as its
initial choice and the children map is allocated; otherwise the child is added
to the existing instance.  In both cases `children[childID] = child`.
(In Go the `else` branch writes into the existing map; a `some sb` / `none
children` state would panic there — `getD []` stands in for that unreachable
case.) -/
def SnowmanBlock.addChild (n : SnowmanBlock) (child : Block) : SnowmanBlock :=
  let childID := child.id
  match n.sb with
  | none =>
      { n with
        sb := some (SnowballTree.newTree n.params childID)
        children := some (assocInsert [] childID child) }
  | some t =>
      { n with
        sb := some (t.add childID)
        children := some (assocInsert (n.children.getD []) childID child) }

/-- Embeds `(*snowmanBlock).Accepted()`: a nil block is the genesis, defined as
accepted; otherwise report whether the block's status is Accepted. -/
def SnowmanBlock.accepted (n : SnowmanBlock) : Bool :=
  match n.blk with
  | none => true
  | some b => b.status = Status.accepted

/-- Lookup of a child by identity in a node's children map (empty when the map
is still nil). -/
def SnowmanBlock.getChild (n : SnowmanBlock) (id : Nat) : Option Block :=
  assocLookup (n.children.getD []) id

/-- Embeds `(snowmanBlock).String()`, modelled as the list of field values the Go
method reads and renders: params, the wrapped block's ID/Status/Parent/
Height/Timestamp when present, the snowball instance when present, and the
children entries when present. -/
def SnowmanBlock.render (n : SnowmanBlock) :
    Parameters × Option (Nat × Status × Nat × Nat × Nat) × Option SnowballTree ×
      Option (List (Nat × Block)) :=
  ( n.params
  , n.blk.map (fun b => (b.id, b.status, b.parent, b.height, b.timestamp))
  , n.sb
  , n.children )

end Avalanche

namespace Avalanche

/-- Key lemma for the association maps: inserting binds the key to the value. -/
theorem assocLookup_assocInsert_self {α : Type} (m : List (Nat × α)) (k : Nat) (v : α) :
    assocLookup (assocInsert m k v) k = some v := by
  induction m with
  | nil => simp [assocInsert, assocLookup]
  | cons hd tl ih =>
      by_cases h : hd.1 = k
      · simp [assocInsert, assocLookup, h]
      · simp [assocInsert, assocLookup, h, ih]

/-- Inserting a binding leaves every value in the map either untouched or
replaced by the inserted value. -/
theorem assocLookup_assocInsert_cases {α : Type} (m : List (Nat × α)) (k : Nat) (v : α)
    (k' : Nat) (b : α) (h : assocLookup (assocInsert m k v) k' = some b) :
    b = v ∨ assocLookup m k' = some b := by
  induction m with
  | nil =>
      simp only [assocInsert, assocLookup] at h
      by_cases hk : k = k'
      · simp [hk] at h; exact Or.inl h.symm
      · simp [hk] at h
  | cons hd tl ih =>
      by_cases hh : hd.1 = k
      · simp only [assocInsert, hh, if_pos rfl] at h
        by_cases hk : k = k'
        · simp [assocLookup, hk] at h
          exact Or.inl h.symm
        · simp only [assocLookup, if_neg hk] at h
          right
          simp [assocLookup, hh, hk, h]
      · simp only [assocInsert, if_neg hh] at h
        by_cases hk : hd.1 = k'
        · simp only [assocLookup, if_pos hk] at h ⊢
          exact Or.inr h
        · simp only [assocLookup, if_neg hk] at h ⊢
          exact ih h
end Avalanche

namespace Avalanche

/-! ### Concrete fixtures used by counterexamples and witnesses -/

/-- Standard deployment-style parameters (K=20, Alpha=15, Beta=3). -/
def exParams : Parameters := ⟨20, 15, 15, 3⟩

/-- A first candidate child block of the genesis. -/
def exBlock1 : Block := ⟨1, 0, 1, 0, Status.processing⟩

/-- A second, conflicting candidate child block of the genesis. -/
def exBlock2 : Block := ⟨2, 0, 1, 0, Status.processing⟩

/-- A fresh genesis node (wrapped block nil, no children yet). -/
def exNode0 : SnowmanBlock := SnowmanBlock.new exParams none

/-- The genesis node after its first child has been issued. -/
def exNode1 : SnowmanBlock := exNode0.addChild exBlock1

/-- C1 counterexample: on a fresh node, `AddChild` with the FIRST child
already creates the snowball instance — `sb` is not nil after the first
child, contrary to the claim that it stays nil until a second child. -/
theorem C1_counterexample : (exNode0.addChild exBlock1).sb ≠ none := by decide

/-- C1 (amended): `sb` is nil only until the first child is issued;
`AddChild` with the first child immediately initializes the snowball
instance (with that child as its initial choice). -/
theorem C1_sb_created_on_first_child (n : SnowmanBlock) (c : Block)
    (h : n.sb = none) :
    (n.addChild c).sb = some (SnowballTree.newTree n.params c.id) := by
  simp [SnowmanBlock.addChild, h]

/-- C1 witness: the amended statement evaluated on the fresh genesis node and
its first child. -/
theorem C1_witness :
    (exNode0.addChild exBlock1).sb =
      some (SnowballTree.newTree exNode0.params exBlock1.id) :=
  C1_sb_created_on_first_child exNode0 exBlock1 (by decide)

/-- C2 counterexample: issuing a second child under an existing node changes
that node's `children` field (and its `sb` field), so a node is not mutated
only by `RecordPoll`. -/
theorem C2_counterexample : (exNode1.addChild exBlock2).children ≠ exNode1.children := by
  decide

/-- C2 (amended): besides `RecordPoll`, `AddChild` mutates an existing node
when a new child is issued under it, but it changes only the `sb` and
`children` fields: `params`, `blk` and `shouldFalter` are untouched. -/
theorem C2_addChild_frame (n : SnowmanBlock) (c : Block) :
    (n.addChild c).params = n.params ∧ (n.addChild c).blk = n.blk ∧
      (n.addChild c).shouldFalter = n.shouldFalter := by
  cases h : n.sb <;> simp [SnowmanBlock.addChild, h]

/-- C3: when the first child is registered with a node's voting primitive,
the snowball instance is initialized with that child's identity as its
initial (and sole) choice, hence as its unconditional preference. -/
theorem C3_first_child_is_initial_choice (n : SnowmanBlock) (c : Block)
    (h : n.sb = none) :
    Option.map SnowballTree.pref (n.addChild c).sb = some c.id ∧
      Option.map SnowballTree.alts (n.addChild c).sb = some [c.id] := by
  simp [SnowmanBlock.addChild, h, SnowballTree.newTree]

/-- C3 witness: evaluated on the fresh genesis node and its first child. -/
theorem C3_witness :
    Option.map SnowballTree.pref (exNode0.addChild exBlock1).sb = some exBlock1.id ∧
      Option.map SnowballTree.alts (exNode0.addChild exBlock1).sb = some [exBlock1.id] :=
  C3_first_child_is_initial_choice exNode0 exBlock1 (by decide)

/-- C4: when the snowball instance already exists, `AddChild` extends that
same instance by registering the new child's identity with it (`sb.Add`), and
never installs a freshly created instance. -/
theorem C4_sb_extended_not_replaced (n : SnowmanBlock) (c : Block)
    (t : SnowballTree) (h : n.sb = some t) :
    (n.addChild c).sb = some (t.add c.id) := by
  simp [SnowmanBlock.addChild, h]

/-- C4 witness: adding a second child under the genesis node extends the
instance created for the first child. -/
theorem C4_witness :
    (exNode1.addChild exBlock2).sb =
      some ((SnowballTree.newTree exParams exBlock1.id).add exBlock2.id) :=
  C4_sb_extended_not_replaced exNode1 exBlock2
    (SnowballTree.newTree exParams exBlock1.id) (by decide)

/-- C5: a node's children map is nil until the first child is added, and
after every `AddChild(child)` call it is non-nil and maps `child.ID()` to
that child. -/
theorem C5_children_map (p : Parameters) (ob : Option Block)
    (n : SnowmanBlock) (c : Block) :
    (SnowmanBlock.new p ob).children = none ∧
      (n.addChild c).children ≠ none ∧
      (n.addChild c).getChild c.id = some c := by
  refine ⟨rfl, ?_, ?_⟩ <;>
    cases h : n.sb <;>
      simp [SnowmanBlock.addChild, SnowmanBlock.getChild, h,
        assocLookup_assocInsert_self]

/-- C6: `Accepted()` returns true whenever the node's block is nil (the
virtual accepted-frontier root), and for a non-nil block it returns true
exactly when the block's status is Accepted. -/
theorem C6_accepted_iff (n : SnowmanBlock) :
    n.accepted = true ↔
      (n.blk = none ∨ ∃ b, n.blk = some b ∧ b.status = Status.accepted) := by
  cases h : n.blk with
  | none => simp [SnowmanBlock.accepted, h]
  | some b => simp [SnowmanBlock.accepted, h]

/-- C7: node operations never mutate block content: `AddChild` leaves the
wrapped block unchanged, and every block stored in the children map after the
call is either the added child itself (unchanged) or a block that was already
stored before. -/
theorem C7_blocks_not_mutated (n : SnowmanBlock) (c : Block) :
    (n.addChild c).blk = n.blk ∧
      ∀ k b, (n.addChild c).getChild k = some b →
        b = c ∨ n.getChild k = some b := by
  constructor
  · exact (C2_addChild_frame n c).2.1
  · intro k b hb
    cases h : n.sb with
    | none =>
        simp only [SnowmanBlock.addChild, h, SnowmanBlock.getChild,
          Option.getD_some] at hb
        rcases assocLookup_assocInsert_cases [] c.id c k b hb with h1 | h1
        · exact Or.inl h1
        · simp [assocLookup] at h1
    | some t =>
        simp only [SnowmanBlock.addChild, h, SnowmanBlock.getChild,
          Option.getD_some] at hb
        rcases assocLookup_assocInsert_cases (n.children.getD []) c.id c k b hb with
          h1 | h1
        · exact Or.inl h1
        · exact Or.inr h1

/-- C7 witness: evaluated on the genesis node holding its first child, adding
the second child; the first child is recovered unchanged. -/
theorem C7_witness :
    (exNode1.addChild exBlock2).blk = exNode1.blk ∧
      (exBlock1 = exBlock2 ∨ exNode1.getChild exBlock1.id = some exBlock1) :=
  ⟨(C7_blocks_not_mutated exNode1 exBlock2).1,
   (C7_blocks_not_mutated exNode1 exBlock2).2 exBlock1.id exBlock1 (by decide)⟩

end Avalanche

namespace Avalanche

/-!
### Consensus engine accept protocol (modelled from the spec)

The engine source (`topological.go`) is not among the reviewed files; the
model below follows spec §4.2: `Add(block)` succeeds only when the parent is
the accepted frontier or a tracked node and the identity is fresh; a poll in
which the frontier node's voting primitive finalizes accepts the preferred
child (a child of the last accepted block), rejects every sibling subtree,
and advances the root to the accepted child.  Which polls finalize is left to
the environment (the `choice` argument), which over-approximates every
possible sequence of `RecordPoll` outcomes.
-/

/-- A candidate block as the engine sees it: identity and parent identity. -/
structure SBlock where
  id : Nat
  parent : Nat
deriving DecidableEq, Repr

/-- Modelled from the spec: the engine's tree state — the last accepted
block's identity (the root) and the tracked pending blocks. -/
structure Engine where
  lastAccepted : Nat
  pending : List SBlock
deriving DecidableEq, Repr

/-- An operation driven by the environment: issue a candidate block, or a
`RecordPoll` round in which the frontier primitive finalizes on `choice`
(rounds that finalize nothing leave the accept trace unchanged and are
irrelevant to the accept events, so they are not modelled). -/
inductive Op where
  | addBlock (b : SBlock)
  | poll (choice : Nat)
deriving DecidableEq, Repr

/-- The identities the engine currently knows: the accepted frontier plus all
pending blocks. -/
def Engine.trackedIds (e : Engine) : List Nat :=
  e.lastAccepted :: e.pending.map SBlock.id

/-- Modelled from the spec: `Add(block)` — rejected (state unchanged) when
the parent is neither the accepted frontier nor a tracked node, or when the
identity already exists; otherwise the block becomes a tracked leaf. -/
def Engine.addBlock (e : Engine) (b : SBlock) : Engine :=
  if b.parent ∈ e.trackedIds ∧ b.id ∉ e.trackedIds then
    { e with pending := e.pending ++ [b] }
  else e

/-- One round of the descendant-closure computation: add every pending block
whose parent is already in the set. -/
def reachStep (pend : List SBlock) (s : List Nat) : List Nat :=
  s ++ (pend.filter (fun b => decide (b.parent ∈ s) && decide (b.id ∉ s))).map SBlock.id

/-- Iterated descendant closure (the pending list's length bounds the number
of rounds needed). -/
def reachIter : Nat → List SBlock → List Nat → List Nat
  | 0, _, s => s
  | n + 1, pend, s => reachIter n pend (reachStep pend s)

/-- Identities of `root` and of every pending block reachable from `root` by
parent linkage inside the pending set. -/
def Engine.descClosure (e : Engine) (root : Nat) : List Nat :=
  reachIter e.pending.length e.pending [root]

/-- Modelled from the spec: a `RecordPoll` round in which the accepted
frontier's voting primitive finalizes on `choice`.  If `choice` is an issued
child of the last accepted block: accept it (`OnAccept`), reject every
pending block outside its descendant closure (`OnReject`, the sibling
subtrees), discard those nodes, and advance the root to `choice`.  Otherwise
nothing is decided.  Returns the new state, the `OnAccept` events and the
`OnReject` events of the round. -/
def Engine.poll (e : Engine) (choice : Nat) : Engine × List Nat × List Nat :=
  match e.pending.find? (fun b => b.id == choice && b.parent == e.lastAccepted) with
  | some _ =>
      let keep := e.descClosure choice
      let rejected := (e.pending.filter (fun c => decide (c.id ∉ keep))).map SBlock.id
      ( { lastAccepted := choice
          pending := e.pending.filter (fun c => decide (c.id ∈ keep) && decide (c.id ≠ choice)) }
      , [choice], rejected )
  | none => (e, [], [])

/-- The engine rebuilt from an accepted block `g` with no pending blocks. -/
def Engine.genesis (g : Nat) : Engine := ⟨g, []⟩

/-- The result of driving the engine through a sequence of operations:
final state plus the `OnAccept` and `OnReject` events in order. -/
structure Trace where
  engine : Engine
  accepts : List Nat
  rejects : List Nat
deriving DecidableEq, Repr

/-- Run the engine over a sequence of operations, collecting the accept and
reject events in the order they are reported. -/
def Engine.run (e : Engine) : List Op → Trace
  | [] => ⟨e, [], []⟩
  | Op.addBlock b :: rest => (e.addBlock b).run rest
  | Op.poll c :: rest =>
      let pr := e.poll c
      let t := pr.1.run rest
      ⟨t.engine, pr.2.1 ++ t.accepts, pr.2.2 ++ t.rejects⟩

/-- Ancestor-or-self relation over a global parent assignment: `IsAnc par a
d` holds when `a` lies on `d`'s parent chain (including `a = d`). -/
inductive IsAnc (par : Nat → Option Nat) : Nat → Nat → Prop
  | refl (x : Nat) : IsAnc par x x
  | step {a p d : Nat} : par d = some p → IsAnc par a p → IsAnc par a d

/-- The accept events form a parent-linked chain starting at `g`. -/
def ChainFrom (par : Nat → Option Nat) : Nat → List Nat → Prop
  | _, [] => True
  | g, b :: rest => par b = some g ∧ ChainFrom par b rest

end Avalanche

namespace Avalanche

/-- Ancestors are at most as high as their descendants when every parent link
strictly decreases height. -/
theorem IsAnc.ht_le (par : Nat → Option Nat) (ht : Nat → Nat)
    (hht : ∀ x y, par x = some y → ht y < ht x) {a d : Nat}
    (h : IsAnc par a d) : ht a ≤ ht d := by
  induction h with
  | refl => exact Nat.le_refl _
  | step hp _ ih => exact Nat.le_trans ih (Nat.le_of_lt (hht _ _ hp))

/-- Ancestry is transitive. -/
theorem IsAnc.trans (par : Nat → Option Nat) {a b c : Nat}
    (h1 : IsAnc par a b) (h2 : IsAnc par b c) : IsAnc par a c := by
  induction h2 with
  | refl => exact h1
  | step hp _ ih => exact IsAnc.step hp ih

/-- Two ancestors of the same node are comparable: the parent chain below a
node is linear. -/
theorem IsAnc.linear (par : Nat → Option Nat) {a b d : Nat}
    (ha : IsAnc par a d) : IsAnc par b d → IsAnc par a b ∨ IsAnc par b a := by
  induction ha with
  | refl => exact fun hb => Or.inr hb
  | step hp hanc ih =>
      intro hb
      cases hb with
      | refl => exact Or.inl (IsAnc.step hp hanc)
      | step hp2 hanc2 =>
          cases Option.some.inj (hp.symm.trans hp2)
          exact ih hanc2

/-- Every element of a chain is a descendant of the chain's base. -/
theorem ChainFrom.get_anc (par : Nat → Option Nat) :
    ∀ (l : List Nat) (g : Nat), ChainFrom par g l →
      ∀ (m : Nat) (bj : Nat), l.get? m = some bj → IsAnc par g bj := by
  intro l
  induction l with
  | nil => intro g _ m bj h; simp at h
  | cons c rest ih =>
      intro g hch m bj h
      obtain ⟨hpc, hrest⟩ := hch
      cases m with
      | zero =>
          simp only [List.get?] at h
          cases Option.some.inj h
          exact IsAnc.step hpc (IsAnc.refl g)
      | succ m =>
          simp only [List.get?] at h
          exact IsAnc.trans par (IsAnc.step hpc (IsAnc.refl g)) (ih c hrest m bj h)

/-- A chain restarted at any of its elements is again a chain. -/
theorem ChainFrom.drop (par : Nat → Option Nat) :
    ∀ (l : List Nat) (g : Nat), ChainFrom par g l →
      ∀ (i : Nat) (bi : Nat), l.get? i = some bi →
        ChainFrom par bi (l.drop (i + 1)) := by
  intro l
  induction l with
  | nil => intro g _ i bi h; simp at h
  | cons c rest ih =>
      intro g hch i bi h
      obtain ⟨hpc, hrest⟩ := hch
      cases i with
      | zero =>
          simp only [List.get?] at h
          cases Option.some.inj h
          simpa using hrest
      | succ i =>
          simp only [List.get?] at h
          simpa using ih c hrest i bi h

/-- In a parent-linked chain over a tree (heights strictly decrease along
parent links), a later chain element is never a sibling of an earlier one,
nor a descendant of such a sibling. -/
theorem ChainFrom.no_sibling_desc (par : Nat → Option Nat) (ht : Nat → Nat)
    (hht : ∀ x y, par x = some y → ht y < ht x)
    (g : Nat) (l : List Nat) (hch : ChainFrom par g l)
    (i j bi bj s : Nat) (hij : i < j)
    (hi : l.get? i = some bi) (hj : l.get? j = some bj)
    (hs : par s = par bi) (hne : s ≠ bi) : ¬ IsAnc par s bj := by
  intro hanc
  have hbi : IsAnc par bi bj := by
    have hdrop := ChainFrom.drop par l g hch i bi hi
    have hget : (l.drop (i + 1)).get? (j - (i + 1)) = some bj := by
      rw [List.get?_drop]
      have : i + 1 + (j - (i + 1)) = j := by omega
      rw [this]; exact hj
    exact ChainFrom.get_anc par _ bi hdrop _ bj hget
  rcases IsAnc.linear par hanc hbi with h1 | h1
  · cases h1 with
    | refl => exact hne rfl
    | step hp hanc2 =>
        rw [hp] at hs
        have h2 := IsAnc.ht_le par ht hht hanc2
        have h3 := hht _ _ hs
        omega
  · cases h1 with
    | refl => exact hne rfl
    | step hp hanc2 =>
        rw [hp] at hs
        have h2 := IsAnc.ht_le par ht hht hanc2
        have h3 := hht _ _ hs.symm
        omega

end Avalanche

namespace Avalanche

/-- Adding a block preserves the root. -/
theorem Engine.addBlock_lastAccepted (e : Engine) (b : SBlock) :
    (e.addBlock b).lastAccepted = e.lastAccepted := by
  unfold Engine.addBlock
  split <;> rfl

/-- The accept events of any run form a parent-linked chain starting at the
engine's root, provided every block handed to the engine carries its own
parent in the global parent assignment. -/
theorem Engine.run_chain (par : Nat → Option Nat) :
    ∀ (ops : List Op) (e : Engine),
      (∀ b ∈ e.pending, par b.id = some b.parent) →
      (∀ b, Op.addBlock b ∈ ops → par b.id = some b.parent) →
      ChainFrom par e.lastAccepted (e.run ops).accepts := by
  intro ops
  induction ops with
  | nil => intro e _ _; simp [Engine.run, ChainFrom]
  | cons op rest ih =>
      intro e hpend hadds
      have hadds' : ∀ b, Op.addBlock b ∈ rest → par b.id = some b.parent :=
        fun b hb => hadds b (List.mem_cons_of_mem _ hb)
      cases op with
      | addBlock b =>
          have hb : par b.id = some b.parent := hadds b (List.mem_cons_self _ _)
          have hpend' : ∀ c ∈ (e.addBlock b).pending, par c.id = some c.parent := by
            intro c hc
            unfold Engine.addBlock at hc
            by_cases hcond : b.parent ∈ e.trackedIds ∧ b.id ∉ e.trackedIds
            · simp only [if_pos hcond, List.mem_append, List.mem_singleton] at hc
              rcases hc with hc | hc
              · exact hpend c hc
              · subst hc; exact hb
            · simp only [if_neg hcond] at hc
              exact hpend c hc
          have hgoal := ih (e.addBlock b) hpend' hadds'
          rw [Engine.addBlock_lastAccepted] at hgoal
          exact hgoal
      | poll c =>
          cases hfind : e.pending.find? (fun b => b.id == c && b.parent == e.lastAccepted) with
          | none =>
              have hgoal := ih e hpend hadds'
              simp only [Engine.run, Engine.poll, hfind]
              simpa using hgoal
          | some b =>
              have hmem : b ∈ e.pending := List.mem_of_find?_eq_some hfind
              have hpred := List.find?_some hfind
              simp only [Bool.and_eq_true, beq_iff_eq] at hpred
              obtain ⟨hid, hpar⟩ := hpred
              have hb := hpend b hmem
              rw [hid, hpar] at hb
              have hpend' :
                  ∀ d ∈ (e.pending.filter
                      (fun d => decide (d.id ∈ e.descClosure c) && decide (d.id ≠ c))),
                    par d.id = some d.parent := by
                intro d hd
                exact hpend d (List.mem_of_mem_filter hd)
              have hch := ih
                { lastAccepted := c
                  pending := e.pending.filter
                    (fun d => decide (d.id ∈ e.descClosure c) && decide (d.id ≠ c)) }
                hpend' hadds'
              simp only [Engine.run, Engine.poll, hfind]
              exact ⟨hb, hch⟩

/-- C8: for every sequence of engine operations (block issuances and
`RecordPoll` rounds), once a block `bi` is reported via `OnAccept`, no
sibling `s` of `bi`, nor any descendant of such a sibling, is ever later
reported via `OnAccept` — provided blocks form a tree (each block's recorded
parent matches the global parent assignment, and heights strictly decrease
along parent links). -/
theorem C8_accept_safety (par : Nat → Option Nat) (ht : Nat → Nat)
    (hht : ∀ x y, par x = some y → ht y < ht x)
    (g : Nat) (ops : List Op)
    (hadds : ∀ b, Op.addBlock b ∈ ops → par b.id = some b.parent)
    (i j bi bj s : Nat) (hij : i < j)
    (hi : ((Engine.genesis g).run ops).accepts.get? i = some bi)
    (hj : ((Engine.genesis g).run ops).accepts.get? j = some bj)
    (hs : par s = par bi) (hne : s ≠ bi) :
    ¬ IsAnc par s bj := by
  have hch : ChainFrom par g ((Engine.genesis g).run ops).accepts := by
    have h0 := Engine.run_chain par ops (Engine.genesis g) (by simp [Engine.genesis]) hadds
    simpa [Engine.genesis] using h0
  exact ChainFrom.no_sibling_desc par ht hht g _ hch i j bi bj s hij hi hj hs hne

/-- Concrete parent assignment for the C8 witness: blocks 1 and 3 are
children of the genesis 0, block 2 is a child of 1. -/
def exPar : Nat → Option Nat := fun x =>
  if x = 1 then some 0 else if x = 3 then some 0 else if x = 2 then some 1 else none

/-- Concrete height assignment for the C8 witness. -/
def exHt : Nat → Nat := fun x => x

/-- Concrete operation sequence for the C8 witness: issue 1 and 3 under the
genesis and 2 under 1, then finalize polls on 1 and on 2. -/
def exOps : List Op :=
  [Op.addBlock ⟨1, 0⟩, Op.addBlock ⟨3, 0⟩, Op.addBlock ⟨2, 1⟩, Op.poll 1, Op.poll 2]

/-- C8 witness: in the concrete run accepting 1 and then 2, block 3 — the
sibling of 1 — is no ancestor-or-self of the later-accepted 2. -/
theorem C8_witness : ¬ IsAnc exPar 3 2 :=
  C8_accept_safety exPar exHt
    (by
      intro x y h
      simp only [exPar] at h
      split_ifs at h with h1 h2 h3
      all_goals
        first
          | exact Option.noConfusion h
          | (cases Option.some.inj h; subst_vars; decide))
    0 exOps
    (by
      intro b hb
      simp [exOps] at hb
      rcases hb with rfl | rfl | rfl <;> decide)
    0 1 1 2 3 (by decide) (by decide) (by decide) (by decide) (by decide)

end Avalanche

namespace Avalanche

/-!
### AVM gossip mempool (`vms/avm/network/gossip.go`)

`gossipMempool.Add` and `gossipMempool.AddWithoutVerification` are embedded
from the source.  Their collaborators — the underlying `mempool.Mempool`, the
transaction verifier and the bloom filter with its churn-based reset policy —
are external packages, modelled minimally below; the verifier and the reset
decision are taken as parameters so that the theorems cover every behaviour
of those collaborators.
-/

/-- A transaction, identified by its ID. -/
structure Tx where
  id : Nat
deriving DecidableEq, Repr

/-- Errors surfaced through the gossip mempool: the duplicate-issuance error,
a verification failure, or a failure of the underlying mempool's `Add`
(verification and mempool failure causes are opaque codes). -/
inductive GErr where
  | duplicateTx (txID : Nat)
  | verifyFailed (code : Nat)
  | addFailed (txID : Nat)
deriving DecidableEq, Repr

/-- Modelled from the spec: the underlying `mempool.Mempool` collaborator
(out of scope in the spec): its observable state is the map from transaction
ID to transaction plus the map of drop reasons. -/
structure Mempool where
  txs : List (Nat × Tx)
  dropped : List (Nat × GErr)
deriving DecidableEq, Repr

/-- Modelled from the spec: `Mempool.Get(txID)`. -/
def Mempool.get (m : Mempool) (txID : Nat) : Option Tx :=
  assocLookup m.txs txID

/-- Modelled from the spec: `Mempool.GetDropReason(txID)`. -/
def Mempool.getDropReason (m : Mempool) (txID : Nat) : Option GErr :=
  assocLookup m.dropped txID

/-- Modelled from the spec: `Mempool.MarkDropped(txID, err)` records the drop
reason. -/
def Mempool.markDropped (m : Mempool) (txID : Nat) (e : GErr) : Mempool :=
  { m with dropped := assocInsert m.dropped txID e }

/-- Modelled from the spec: `Mempool.Add(tx)` — fails (leaving the mempool
unchanged) when the identity is already present, otherwise stores the
transaction. -/
def Mempool.add (m : Mempool) (tx : Tx) : Except GErr Mempool :=
  if (m.get tx.id).isSome then Except.error (GErr.addFailed tx.id)
  else Except.ok { m with txs := assocInsert m.txs tx.id tx }

/-- Modelled from the spec: `Mempool.Len()`. -/
def Mempool.len (m : Mempool) : Nat := m.txs.length

/-- Modelled from the spec: the transactions visited by `Mempool.Iterate`. -/
def Mempool.txList (m : Mempool) : List Tx := m.txs.map Prod.snd

/-- Constant `bloomChurnMultiplier`: the mempool size is multiplied by this number to
choose the target size of the bloom filter. -/
def bloomChurnMultiplier : Nat := 3

/-- Modelled from the spec: the gossip bloom filter, abstracted to the set of
transaction IDs that have been added since its last reset. -/
structure BloomFilter where
  elems : List Nat
deriving DecidableEq, Repr

/-- Modelled from the spec: `bloom.Add(tx)`. -/
def BloomFilter.addTx (f : BloomFilter) (tx : Tx) : BloomFilter :=
  { elems := tx.id :: f.elems }

/-- State of `gossipMempool`: the underlying mempool plus the gossip bloom filter. -/
structure GossipMempool where
  mp : Mempool
  bloom : BloomFilter
deriving DecidableEq, Repr

/-- Embeds `gossipMempool.AddWithoutVerification(tx)`: forward to `Mempool.Add`,
marking the transaction dropped with the returned error on failure; on
success add the transaction to the bloom filter and, when the churn policy
asks for a reset (`ResetBloomFilterIfNeeded` with target
`Len() * bloomChurnMultiplier`), rebuild a fresh filter from every
transaction in the mempool.  `resetPolicy` stands for the collaborator's
reset decision given the filter and the target element count. -/
def GossipMempool.addWithoutVerification (resetPolicy : BloomFilter → Nat → Bool)
    (g : GossipMempool) (tx : Tx) : Option GErr × GossipMempool :=
  match g.mp.add tx with
  | Except.error e => (some e, { g with mp := g.mp.markDropped tx.id e })
  | Except.ok mp' =>
      let bloom1 := g.bloom.addTx tx
      if resetPolicy bloom1 (mp'.len * bloomChurnMultiplier) then
        (none, { mp := mp', bloom := mp'.txList.foldl BloomFilter.addTx { elems := [] } })
      else
        (none, { mp := mp', bloom := bloom1 })

/-- One iteration of the loop body of `gossipMempool.Add(txs...)`: report a
duplicate if the mempool already holds the identity; report the recorded drop
reason if the transaction is already being dropped; verify, and on failure
mark the transaction dropped with the verification error and report it;
otherwise fall through to `AddWithoutVerification`.  `verify` stands for
`txVerifier.VerifyTx`. -/
def GossipMempool.addOne (verify : Tx → Option GErr)
    (resetPolicy : BloomFilter → Nat → Bool)
    (g : GossipMempool) (tx : Tx) : Option GErr × GossipMempool :=
  let txID := tx.id
  if (g.mp.get txID).isSome then
    (some (GErr.duplicateTx txID), g)
  else
    match g.mp.getDropReason txID with
    | some e => (some e, g)
    | none =>
        match verify tx with
        | some e => (some e, { g with mp := g.mp.markDropped txID e })
        | none => g.addWithoutVerification resetPolicy tx

/-- Embeds `gossipMempool.Add(txs...)`: process the transactions in order, threading
the state and collecting one error slot (`none` = Go `nil`) per input. -/
def GossipMempool.addMany (verify : Tx → Option GErr)
    (resetPolicy : BloomFilter → Nat → Bool)
    (g : GossipMempool) : List Tx → List (Option GErr) × GossipMempool
  | [] => ([], g)
  | tx :: rest =>
      let r := GossipMempool.addOne verify resetPolicy g tx
      let rr := GossipMempool.addMany verify resetPolicy r.2 rest
      (r.1 :: rr.1, rr.2)

/-- The bloom-filter invariant of claim C10: every transaction currently in
the mempool has been added to the bloom filter. -/
abbrev GossipMempool.bloomInv (g : GossipMempool) : Prop :=
  ∀ t ∈ g.mp.txList, t.id ∈ g.bloom.elems

end Avalanche

namespace Avalanche

/-- Inserting under one key does not disturb lookups under another. -/
theorem assocLookup_assocInsert_other {α : Type} (m : List (Nat × α)) (k : Nat) (v : α)
    (k' : Nat) (hne : k ≠ k') :
    assocLookup (assocInsert m k v) k' = assocLookup m k' := by
  have hne' : k' ≠ k := Ne.symm hne
  induction m with
  | nil => simp [assocInsert, assocLookup, hne]
  | cons hd tl ih =>
      by_cases hh : hd.1 = k
      · simp [assocInsert, assocLookup, hh, hne]
      · by_cases hk : hd.1 = k'
        · simp [assocInsert, assocLookup, hh, hk, hne']
        · simp [assocInsert, assocLookup, hh, hk, ih]

/-- The element just past a left factor of an append. -/
theorem get?_append_left_length {α : Type} :
    ∀ (l1 l2 : List α), (l1 ++ l2).get? l1.length = l2.get? 0 := by
  intro l1 l2
  induction l1 with
  | nil => rfl
  | cons a t ih => simpa using ih

/-- Lemma: `gossipMempool.Add` produces one error slot per input transaction. -/
theorem addMany_length (verify : Tx → Option GErr) (rp : BloomFilter → Nat → Bool) :
    ∀ (l : List Tx) (g : GossipMempool),
      (GossipMempool.addMany verify rp g l).1.length = l.length := by
  intro l
  induction l with
  | nil => intro g; rfl
  | cons tx rest ih => intro g; simp [GossipMempool.addMany, ih]

/-- The `Add` loop over an appended list is the loop over the first part
followed by the loop over the second, threading the state. -/
theorem addMany_append (verify : Tx → Option GErr) (rp : BloomFilter → Nat → Bool) :
    ∀ (xs ys : List Tx) (g : GossipMempool),
      GossipMempool.addMany verify rp g (xs ++ ys) =
        ((GossipMempool.addMany verify rp g xs).1 ++
            (GossipMempool.addMany verify rp
              (GossipMempool.addMany verify rp g xs).2 ys).1,
          (GossipMempool.addMany verify rp
            (GossipMempool.addMany verify rp g xs).2 ys).2) := by
  intro xs
  induction xs with
  | nil => intro ys g; simp [GossipMempool.addMany]
  | cons tx rest ih => intro ys g; simp [GossipMempool.addMany, ih]

/-- Marking a transaction dropped records exactly that reason. -/
theorem getDropReason_markDropped_self (m : Mempool) (txID : Nat) (e : GErr) :
    (m.markDropped txID e).getDropReason txID = some e :=
  assocLookup_assocInsert_self m.dropped txID e

/-- Processing one transaction preserves an already-recorded drop reason for
a transaction that is not in the mempool, and does not add it. -/
theorem addOne_preserves_drop (verify : Tx → Option GErr)
    (rp : BloomFilter → Nat → Bool) (g : GossipMempool) (tx : Tx)
    (tid : Nat) (e : GErr)
    (hdrop : g.mp.getDropReason tid = some e) (hget : g.mp.get tid = none) :
    (GossipMempool.addOne verify rp g tx).2.mp.getDropReason tid = some e ∧
      (GossipMempool.addOne verify rp g tx).2.mp.get tid = none := by
  unfold GossipMempool.addOne
  by_cases h1 : (g.mp.get tx.id).isSome
  · simp [h1, hdrop, hget]
  · cases h2 : g.mp.getDropReason tx.id with
    | some e' => simp [h1, h2, hdrop, hget]
    | none =>
        have hne : tx.id ≠ tid := by
          intro he
          rw [he, hdrop] at h2
          exact Option.noConfusion h2
        cases h3 : verify tx with
        | some e' =>
            simp only [h1, h2, h3, Bool.false_eq_true, if_false]
            refine ⟨?_, ?_⟩
            · simpa [Mempool.markDropped, Mempool.getDropReason,
                assocLookup_assocInsert_other _ _ _ _ hne] using hdrop
            · simpa [Mempool.markDropped, Mempool.get] using hget
        | none =>
            simp only [h1, h2, h3, Bool.false_eq_true, if_false]
            unfold GossipMempool.addWithoutVerification
            unfold Mempool.add
            simp only [h1, Bool.false_eq_true, if_false]
            by_cases h4 : rp ((g.bloom.addTx tx))
                ((Mempool.len { g.mp with txs := assocInsert g.mp.txs tx.id tx }) *
                  bloomChurnMultiplier)
            · simp only [h4, if_true]
              refine ⟨hdrop, ?_⟩
              simpa [Mempool.get, assocLookup_assocInsert_other _ _ _ _ hne] using hget
            · simp only [h4, Bool.false_eq_true, if_false]
              refine ⟨hdrop, ?_⟩
              simpa [Mempool.get, assocLookup_assocInsert_other _ _ _ _ hne] using hget

/-- The whole `Add` loop preserves an already-recorded drop reason for a
transaction that is not in the mempool. -/
theorem addMany_preserves_drop (verify : Tx → Option GErr)
    (rp : BloomFilter → Nat → Bool) :
    ∀ (l : List Tx) (g : GossipMempool) (tid : Nat) (e : GErr),
      g.mp.getDropReason tid = some e → g.mp.get tid = none →
      (GossipMempool.addMany verify rp g l).2.mp.getDropReason tid = some e ∧
        (GossipMempool.addMany verify rp g l).2.mp.get tid = none := by
  intro l
  induction l with
  | nil => intro g tid e h1 h2; exact ⟨h1, h2⟩
  | cons tx rest ih =>
      intro g tid e h1 h2
      have h := addOne_preserves_drop verify rp g tx tid e h1 h2
      simpa [GossipMempool.addMany] using ih _ tid e h.1 h.2

/-- The loop body on a fresh, undropped transaction that fails verification:
the error is reported and the transaction is marked dropped. -/
theorem addOne_verify_failed (verify : Tx → Option GErr)
    (rp : BloomFilter → Nat → Bool) (g : GossipMempool) (tx : Tx) (e : GErr)
    (hget : g.mp.get tx.id = none) (hdrop : g.mp.getDropReason tx.id = none)
    (hverify : verify tx = some e) :
    GossipMempool.addOne verify rp g tx =
      (some e, { g with mp := g.mp.markDropped tx.id e }) := by
  unfold GossipMempool.addOne
  simp [hget, hdrop, hverify]

end Avalanche

namespace Avalanche

/-- C9: `gossipMempool.Add` returns one error slot per input transaction in
order, and when a transaction (not already in the mempool and not already
being dropped when its turn comes) fails `txVerifier.VerifyTx`, it is marked
dropped with the verification error, is not added to the mempool, and that
error is returned at the transaction's index. -/
theorem C9_add_verify_failure (verify : Tx → Option GErr)
    (resetPolicy : BloomFilter → Nat → Bool) (g : GossipMempool)
    (pre post : List Tx) (tx : Tx) (e : GErr)
    (hget : (GossipMempool.addMany verify resetPolicy g pre).2.mp.get tx.id = none)
    (hdrop : (GossipMempool.addMany verify resetPolicy g pre).2.mp.getDropReason tx.id
      = none)
    (hverify : verify tx = some e) :
    (GossipMempool.addMany verify resetPolicy g (pre ++ tx :: post)).1.length
        = (pre ++ tx :: post).length ∧
      (GossipMempool.addMany verify resetPolicy g (pre ++ tx :: post)).1.get? pre.length
        = some (some e) ∧
      (GossipMempool.addMany verify resetPolicy g
          (pre ++ tx :: post)).2.mp.getDropReason tx.id = some e ∧
      (GossipMempool.addMany verify resetPolicy g (pre ++ tx :: post)).2.mp.get tx.id
        = none := by
  have happ := addMany_append verify resetPolicy pre (tx :: post) g
  have hone := addOne_verify_failed verify resetPolicy
    (GossipMempool.addMany verify resetPolicy g pre).2 tx e hget hdrop hverify
  have hcons :
      GossipMempool.addMany verify resetPolicy
          (GossipMempool.addMany verify resetPolicy g pre).2 (tx :: post) =
        (some e ::
            (GossipMempool.addMany verify resetPolicy
              { (GossipMempool.addMany verify resetPolicy g pre).2 with
                  mp := (GossipMempool.addMany verify resetPolicy g pre).2.mp.markDropped
                    tx.id e } post).1,
          (GossipMempool.addMany verify resetPolicy
            { (GossipMempool.addMany verify resetPolicy g pre).2 with
                mp := (GossipMempool.addMany verify resetPolicy g pre).2.mp.markDropped
                  tx.id e } post).2) := by
    simp [GossipMempool.addMany, hone]
  have hdropped :
      ({ (GossipMempool.addMany verify resetPolicy g pre).2 with
          mp := (GossipMempool.addMany verify resetPolicy g pre).2.mp.markDropped
            tx.id e } : GossipMempool).mp.getDropReason tx.id = some e :=
    getDropReason_markDropped_self _ tx.id e
  have hgetmk :
      ({ (GossipMempool.addMany verify resetPolicy g pre).2 with
          mp := (GossipMempool.addMany verify resetPolicy g pre).2.mp.markDropped
            tx.id e } : GossipMempool).mp.get tx.id = none := by
    simpa [Mempool.markDropped, Mempool.get] using hget
  have hpers := addMany_preserves_drop verify resetPolicy post
    { (GossipMempool.addMany verify resetPolicy g pre).2 with
        mp := (GossipMempool.addMany verify resetPolicy g pre).2.mp.markDropped tx.id e }
    tx.id e hdropped hgetmk
  refine ⟨?_, ?_, ?_, ?_⟩
  · rw [happ]
    simp [addMany_length]
  · rw [happ]
    have hlen : (GossipMempool.addMany verify resetPolicy g pre).1.length = pre.length :=
      addMany_length verify resetPolicy pre g
    rw [← hlen, get?_append_left_length, hcons]
    rfl
  · rw [happ]
    simpa [hcons] using hpers.1
  · rw [happ]
    simpa [hcons] using hpers.2

/-- Concrete gossip mempool state for witnesses: empty mempool, empty bloom
filter. -/
def exGm : GossipMempool := ⟨⟨[], []⟩, ⟨[]⟩⟩

/-- Concrete verifier for the C9 witness: rejects every transaction with
error code 7. -/
def exVerify : Tx → Option GErr := fun _ => some (GErr.verifyFailed 7)

/-- Concrete reset policy for witnesses: never reset. -/
def exNoReset : BloomFilter → Nat → Bool := fun _ _ => false

/-- C9 witness: adding a single transaction that fails verification to the
empty gossip mempool. -/
theorem C9_witness :
    (GossipMempool.addMany exVerify exNoReset exGm
          (([] : List Tx) ++ Tx.mk 1 :: [])).1.length
        = (([] : List Tx) ++ Tx.mk 1 :: []).length ∧
      (GossipMempool.addMany exVerify exNoReset exGm
          (([] : List Tx) ++ Tx.mk 1 :: [])).1.get? (List.length ([] : List Tx)) =
        some (some (GErr.verifyFailed 7)) ∧
      (GossipMempool.addMany exVerify exNoReset exGm
          (([] : List Tx) ++ Tx.mk 1 :: [])).2.mp.getDropReason (Tx.mk 1).id =
        some (GErr.verifyFailed 7) ∧
      (GossipMempool.addMany exVerify exNoReset exGm
          (([] : List Tx) ++ Tx.mk 1 :: [])).2.mp.get (Tx.mk 1).id = none :=
  C9_add_verify_failure exVerify exNoReset exGm [] [] (Tx.mk 1) (GErr.verifyFailed 7)
    (by decide) (by decide) (by decide)

end Avalanche

namespace Avalanche

/-- Folding `bloom.Add` over a list keeps everything already in the filter. -/
theorem foldl_addTx_mem_of_base :
    ∀ (l : List Tx) (f : BloomFilter) (x : Nat),
      x ∈ f.elems → x ∈ (l.foldl BloomFilter.addTx f).elems := by
  intro l
  induction l with
  | nil => intro f x hx; simpa using hx
  | cons t rest ih =>
      intro f x hx
      exact ih (f.addTx t) x (by simp [BloomFilter.addTx, hx])

/-- Folding `bloom.Add` over a list puts every listed transaction's ID into
the filter. -/
theorem foldl_addTx_mem :
    ∀ (l : List Tx) (f : BloomFilter) (t : Tx),
      t ∈ l → t.id ∈ (l.foldl BloomFilter.addTx f).elems := by
  intro l
  induction l with
  | nil => intro f t ht; simp at ht
  | cons t0 rest ih =>
      intro f t ht
      rcases List.mem_cons.mp ht with h | h
      · subst h
        exact foldl_addTx_mem_of_base rest (f.addTx t) t.id
          (by simp [BloomFilter.addTx])
      · exact ih (f.addTx t0) t h

/-- A transaction stored after an association-map insert is the inserted one
or was stored before. -/
theorem mem_map_snd_assocInsert {α : Type} :
    ∀ (m : List (Nat × α)) (k : Nat) (v t : α),
      t ∈ (assocInsert m k v).map Prod.snd → t = v ∨ t ∈ m.map Prod.snd := by
  intro m
  induction m with
  | nil =>
      intro k v t h
      simp [assocInsert] at h
      exact Or.inl h
  | cons hd tl ih =>
      intro k v t h
      by_cases hk : hd.1 = k
      · simp only [assocInsert, if_pos hk, List.map_cons, List.mem_cons] at h
        rcases h with h | h
        · exact Or.inl h
        · exact Or.inr (by simp only [List.map_cons, List.mem_cons]; exact Or.inr h)
      · simp only [assocInsert, if_neg hk, List.map_cons, List.mem_cons] at h
        rcases h with h | h
        · exact Or.inr (by simp only [List.map_cons, List.mem_cons]; exact Or.inl h)
        · rcases ih k v t h with h1 | h1
          · exact Or.inl h1
          · exact Or.inr (by simp only [List.map_cons, List.mem_cons]; exact Or.inr h1)

/-- C10: `AddWithoutVerification` preserves the invariant that every
transaction currently in the mempool has been added to the bloom filter: if
the invariant holds before a call that returns nil, it holds afterwards,
whether or not the churn-based filter reset was triggered. -/
theorem C10_addWithoutVerification_bloomInv (resetPolicy : BloomFilter → Nat → Bool)
    (g : GossipMempool) (tx : Tx)
    (hinv : g.bloomInv)
    (hok : (GossipMempool.addWithoutVerification resetPolicy g tx).1 = none) :
    (GossipMempool.addWithoutVerification resetPolicy g tx).2.bloomInv := by
  unfold GossipMempool.addWithoutVerification at hok ⊢
  cases hadd : g.mp.add tx with
  | error e => rw [hadd] at hok; simp at hok
  | ok mp' =>
      unfold Mempool.add at hadd
      by_cases hg : (g.mp.get tx.id).isSome
      · simp [hg] at hadd
      · simp only [hg, Bool.false_eq_true, if_false, Except.ok.injEq] at hadd
        dsimp only
        by_cases hrp : resetPolicy (g.bloom.addTx tx) (mp'.len * bloomChurnMultiplier)
        · simp only [hrp, if_true]
          intro t ht
          exact foldl_addTx_mem mp'.txList { elems := [] } t ht
        · simp only [hrp, Bool.false_eq_true, if_false]
          intro t ht
          rw [← hadd] at ht
          simp only [Mempool.txList] at ht
          rcases mem_map_snd_assocInsert g.mp.txs tx.id tx t ht with h | h
          · subst h
            simp [BloomFilter.addTx]
          · have := hinv t (by simpa [Mempool.txList] using h)
            simp [BloomFilter.addTx]
            exact Or.inr this

/-- C10 witness: adding one transaction to the empty gossip mempool keeps
the bloom invariant. -/
theorem C10_witness :
    (GossipMempool.addWithoutVerification exNoReset exGm (Tx.mk 1)).2.bloomInv :=
  C10_addWithoutVerification_bloomInv exNoReset exGm (Tx.mk 1)
    (by decide) (by decide)

end Avalanche
